import Mathlib

/-!
Verification of the KangaMarketRanking data-transformation pipeline.

The TypeScript sources are shallowly embedded: JavaScript numbers are
modelled as exact rationals extended with the non-finite values `NaN`,
`Infinity` and `-Infinity`; `null`/`undefined` inputs are modelled with
`Option`; fallible validation returns `Except`.  `Array.prototype.sort`
(a stable comparator sort per ES2019) is modelled with the stable
`List.insertionSort`.
-/

namespace KangaMarket

/-- A JavaScript number: a finite (exact) rational or one of the three
non-finite values. -/
inductive JSNum where
  | fin (q : ℚ)
  | nan
  | posInf
  | negInf
deriving DecidableEq

/-- Model of `Number.isFinite` on a `JSNum`. -/
def JSNum.isFinite : JSNum → Bool
  | .fin _ => true
  | _ => false

/-- Embedding of `calculateSpread` (src/utils/spreadCalculator).
Guards in source order: `bid == null || ask == null` (the two `none`
cases), `!Number.isFinite` (the final catch-all case), `bid <= 0 ||
ask <= 0`, `ask < bid`, `bid === ask`, then the mid-price formula
`((ask - bid) / ((bid + ask) / 2)) * 100`. -/
def calculateSpread : Option JSNum → Option JSNum → Option ℚ
  | none, _ => none
  | _, none => none
  | some (.fin bid), some (.fin ask) =>
    if bid ≤ 0 ∨ ask ≤ 0 then none
    else if ask < bid then none
    else if bid = ask then some 0
    else some (((ask - bid) / ((bid + ask) / 2)) * 100)
  | some _, some _ => none

/-- Embedding of `calculateAbsoluteSpread` (src/utils/spreadCalculator).
Same guards as `calculateSpread` except that there is no
`ask < bid` check and no `bid === ask` special case; returns
`ask - bid`. -/
def calculateAbsoluteSpread : Option JSNum → Option JSNum → Option ℚ
  | none, _ => none
  | _, none => none
  | some (.fin bid), some (.fin ask) =>
    if bid ≤ 0 ∨ ask ≤ 0 then none
    else some (ask - bid)
  | some _, some _ => none

/-- The three-tier liquidity rating. -/
inductive RAGStatus where
  | green
  | amber
  | red
deriving DecidableEq

/-- The threshold `RAG_THRESHOLD.GREEN_MAX` from src/utils/ragClassifier.ts. -/
def GREEN_MAX : ℚ := 2

/-- Embedding of `classifyRAG` (src/utils/ragClassifier.ts): red for
`null`/non-finite, green for `spread ≤ RAG_THRESHOLD.GREEN_MAX`,
amber otherwise. -/
def classifyRAG : Option JSNum → RAGStatus
  | none => .red
  | some (.fin spread) => if spread ≤ GREEN_MAX then .green else .amber
  | some _ => .red

end KangaMarket

namespace KangaMarket

/-- C3: `classifyRAG` returns green iff the spread is a finite number
`≤ 2.0`, red iff the spread is null or non-finite, and amber iff the
spread is a finite number `> 2.0`. -/
theorem classifyRAG_characterization (spread : Option JSNum) :
    (classifyRAG spread = .green ↔ ∃ q, spread = some (.fin q) ∧ q ≤ 2) ∧
    (classifyRAG spread = .red ↔
      spread = none ∨ ∃ s, spread = some s ∧ s.isFinite = false) ∧
    (classifyRAG spread = .amber ↔ ∃ q, spread = some (.fin q) ∧ 2 < q) := by
  match spread with
  | none => simp [classifyRAG]
  | some (.fin q) =>
    by_cases h : q ≤ 2
    · simp [classifyRAG, GREEN_MAX, h, JSNum.isFinite]
    · simp [classifyRAG, GREEN_MAX, h, JSNum.isFinite]
      linarith [not_le.mp h]
  | some .nan => simp [classifyRAG, JSNum.isFinite]
  | some .posInf => simp [classifyRAG, JSNum.isFinite]
  | some .negInf => simp [classifyRAG, JSNum.isFinite]

/-- C4: for finite `bid`, `ask` with `bid > 0`, `ask > 0` and
`ask ≥ bid`, `calculateSpread` returns a value in `[0, 200)` which is
zero exactly when `ask = bid`. -/
theorem calculateSpread_range (bid ask : ℚ) (hb : 0 < bid) (ha : 0 < ask)
    (hba : bid ≤ ask) :
    ∃ s, calculateSpread (some (.fin bid)) (some (.fin ask)) = some s ∧
      0 ≤ s ∧ s < 200 ∧ (s = 0 ↔ ask = bid) := by
  have hnb : ¬ (bid ≤ 0 ∨ ask ≤ 0) := by push_neg; exact ⟨hb, ha⟩
  have hnc : ¬ ask < bid := not_lt.mpr hba
  by_cases heq : bid = ask
  · refine ⟨0, ?_, le_refl 0, by norm_num, by simp [heq]⟩
    simp only [calculateSpread]
    rw [if_neg hnb, if_neg hnc, if_pos heq]
  · have hlt : bid < ask := lt_of_le_of_ne hba heq
    refine ⟨((ask - bid) / ((bid + ask) / 2)) * 100, ?_, ?_, ?_, ?_⟩
    · simp only [calculateSpread]
      rw [if_neg hnb, if_neg hnc, if_neg heq]
    · have hmid : 0 < (bid + ask) / 2 := by linarith
      have := div_nonneg (by linarith : (0:ℚ) ≤ ask - bid) (le_of_lt hmid)
      linarith
    · have hmid : 0 < (bid + ask) / 2 := by linarith
      rw [mul_comm, ← mul_div_assoc, div_lt_iff₀ hmid]
      linarith
    · have hmid : 0 < (bid + ask) / 2 := by linarith
      constructor
      · intro h0
        have hdiv : 0 < (ask - bid) / ((bid + ask) / 2) :=
          div_pos (by linarith) hmid
        nlinarith
      · intro h; exact absurd h.symm heq

/-- C4 witness at `bid = 1`, `ask = 2`. -/
theorem calculateSpread_range_witness :
    (0:ℚ) < 1 ∧
      ∃ s, calculateSpread (some (.fin 1)) (some (.fin 2)) = some s ∧
        0 ≤ s ∧ s < 200 ∧ (s = 0 ↔ (2:ℚ) = 1) :=
  ⟨by norm_num, calculateSpread_range 1 2 (by norm_num) (by norm_num) (by norm_num)⟩

/-- C6 counterexample: on the crossed book `bid = 2`, `ask = 1`,
`calculateSpread` is null but `calculateAbsoluteSpread` is `-1`, so the
two functions do not share the same null rules. -/
theorem absoluteSpread_null_rules_counterexample :
    calculateSpread (some (.fin 2)) (some (.fin 1)) = none ∧
      calculateAbsoluteSpread (some (.fin 2)) (some (.fin 1)) = some (-1) := by
  constructor
  · simp [calculateSpread]
  · norm_num [calculateAbsoluteSpread]

/-- C6 amended: `calculateAbsoluteSpread` is null iff bid or ask is
null/undefined, non-finite, or `≤ 0`; `calculateSpread` is null in
exactly those cases plus the crossed book `ask < bid`, where the
absolute spread instead returns `ask - bid`. -/
theorem absoluteSpread_null_rules (bid ask : Option JSNum) :
    (calculateAbsoluteSpread bid ask = none ↔
      bid = none ∨ ask = none ∨
        (∃ s, bid = some s ∧ s.isFinite = false) ∨
        (∃ s, ask = some s ∧ s.isFinite = false) ∨
        (∃ b, bid = some (.fin b) ∧ b ≤ 0) ∨
        (∃ a, ask = some (.fin a) ∧ a ≤ 0)) ∧
    (calculateSpread bid ask = none ↔
      (calculateAbsoluteSpread bid ask = none ∨
        ∃ b a, bid = some (.fin b) ∧ ask = some (.fin a) ∧
          0 < b ∧ 0 < a ∧ a < b)) ∧
    (∀ b a, bid = some (.fin b) → ask = some (.fin a) → 0 < b → 0 < a →
      calculateAbsoluteSpread bid ask = some (a - b)) := by
  match bid, ask with
  | none, _ => simp [calculateSpread, calculateAbsoluteSpread]
  | some (.fin b), none => simp [calculateSpread, calculateAbsoluteSpread]
  | some .nan, none => simp [calculateSpread, calculateAbsoluteSpread]
  | some .posInf, none => simp [calculateSpread, calculateAbsoluteSpread]
  | some .negInf, none => simp [calculateSpread, calculateAbsoluteSpread]
  | some (.fin b), some (.fin a) =>
    refine ⟨?_, ?_, ?_⟩
    · by_cases hz : b ≤ 0 ∨ a ≤ 0
      · have h2 : calculateAbsoluteSpread (some (.fin b)) (some (.fin a)) = none := by
          simp only [calculateAbsoluteSpread]; rw [if_pos hz]
        rw [h2]
        simp only [JSNum.isFinite, true_iff, Option.some.injEq, JSNum.fin.injEq]
        simp
        exact hz
      · push_neg at hz
        have hnz : ¬ (b ≤ 0 ∨ a ≤ 0) := by push_neg; exact hz
        have h2 : calculateAbsoluteSpread (some (.fin b)) (some (.fin a)) =
            some (a - b) := by
          simp only [calculateAbsoluteSpread]; rw [if_neg hnz]
        rw [h2]
        simp [JSNum.isFinite]
        exact hz
    · by_cases hz : b ≤ 0 ∨ a ≤ 0
      · have h1 : calculateSpread (some (.fin b)) (some (.fin a)) = none := by
          simp only [calculateSpread]; rw [if_pos hz]
        have h2 : calculateAbsoluteSpread (some (.fin b)) (some (.fin a)) = none := by
          simp only [calculateAbsoluteSpread]; rw [if_pos hz]
        rw [h1, h2]
        simp
      · push_neg at hz
        have hnz : ¬ (b ≤ 0 ∨ a ≤ 0) := by push_neg; exact hz
        have h2 : calculateAbsoluteSpread (some (.fin b)) (some (.fin a)) =
            some (a - b) := by
          simp only [calculateAbsoluteSpread]; rw [if_neg hnz]
        by_cases hc : a < b
        · have h1 : calculateSpread (some (.fin b)) (some (.fin a)) = none := by
            simp only [calculateSpread]; rw [if_neg hnz, if_pos hc]
          rw [h1, h2]
          exact iff_of_true rfl (Or.inr ⟨b, a, rfl, rfl, hz.1, hz.2, hc⟩)
        · have hfalse : ¬ (calculateAbsoluteSpread (some (.fin b)) (some (.fin a)) = none ∨
              ∃ b' a', (some (JSNum.fin b) : Option JSNum) = some (.fin b') ∧
                (some (JSNum.fin a) : Option JSNum) = some (.fin a') ∧
                0 < b' ∧ 0 < a' ∧ a' < b') := by
            rw [h2]
            rintro (h | ⟨b', a', hb', ha', hbp, hap, hlt⟩)
            · exact Option.noConfusion h
            · simp only [Option.some.injEq, JSNum.fin.injEq] at hb' ha'
              subst hb'; subst ha'
              exact hc hlt
          by_cases heq : b = a
          · have h1 : calculateSpread (some (.fin b)) (some (.fin a)) = some 0 := by
              simp only [calculateSpread]; rw [if_neg hnz, if_neg hc, if_pos heq]
            rw [h1]
            exact iff_of_false (by simp) hfalse
          · have h1 : calculateSpread (some (.fin b)) (some (.fin a)) =
                some (((a - b) / ((b + a) / 2)) * 100) := by
              simp only [calculateSpread]; rw [if_neg hnz, if_neg hc, if_neg heq]
            rw [h1]
            exact iff_of_false (by simp) hfalse
    · intro b' a' hb' ha' hbp hap
      have hnz : ¬ (b' ≤ 0 ∨ a' ≤ 0) := by push_neg; exact ⟨hbp, hap⟩
      simp only [Option.some.injEq, JSNum.fin.injEq] at hb' ha'
      subst hb' ha'
      simp only [calculateAbsoluteSpread]
      rw [if_neg hnz]
  | some .nan, some s => simp [calculateSpread, calculateAbsoluteSpread, JSNum.isFinite]
  | some .posInf, some s => simp [calculateSpread, calculateAbsoluteSpread, JSNum.isFinite]
  | some .negInf, some s => simp [calculateSpread, calculateAbsoluteSpread, JSNum.isFinite]
  | some (.fin b), some .nan => simp [calculateSpread, calculateAbsoluteSpread, JSNum.isFinite]
  | some (.fin b), some .posInf => simp [calculateSpread, calculateAbsoluteSpread, JSNum.isFinite]
  | some (.fin b), some .negInf => simp [calculateSpread, calculateAbsoluteSpread, JSNum.isFinite]

/-- C6 amended witness at `bid = 2`, `ask = 1` (crossed book). -/
theorem absoluteSpread_null_rules_witness :
    calculateAbsoluteSpread (some (.fin 2)) (some (.fin 1)) = some (1 - 2) :=
  (absoluteSpread_null_rules (some (.fin 2)) (some (.fin 1))).2.2 2 1 rfl rfl
    (by norm_num) (by norm_num)

/-! ### Compound sort engine -/

/-- Sortable fields (src/api/types `SortField`). -/
inductive SortField where
  | market
  | spread
  | volume
  | price
  | ragStatus
deriving DecidableEq

/-- Sort direction (src/api/types `SortOrder`). -/
inductive SortOrder where
  | asc
  | desc
deriving DecidableEq

/-- A `{field, order}` entry of the sort chain (src/api/types `SortConfig`). -/
structure SortConfig where
  field : SortField
  order : SortOrder
deriving DecidableEq

/-- Embedding of `MarketData` (src/types): the assembled per-market record. -/
structure MarketData where
  tickerId : String
  market : String
  baseSymbol : String
  targetSymbol : String
  highestBid : Option ℚ
  lowestAsk : Option ℚ
  spread : Option ℚ
  spreadPercentage : Option ℚ
  ragStatus : RAGStatus
  lastPrice : ℚ
  volume24h : ℚ
  high24h : Option ℚ
  low24h : Option ℚ
deriving DecidableEq

/-- Model of `String.prototype.localeCompare` as code-point
lexicographic comparison (no claim depends on locale tailoring). -/
def localeCompare (a b : String) : ℚ :=
  if a < b then -1 else if b < a then 1 else 0

/-- Embedding of `compareByMarket` (src/utils/marketComparators). -/
def compareByMarket (a b : MarketData) : ℚ :=
  localeCompare a.market b.market

/-- Embedding of `compareBySpread` (src/utils/marketComparators): null
spreads compare after non-null ones, otherwise `a.spread - b.spread`. -/
def compareBySpread (a b : MarketData) : ℚ :=
  match a.spread, b.spread with
  | none, none => 0
  | none, some _ => 1
  | some _, none => -1
  | some x, some y => x - y

/-- Embedding of `compareByVolume` (src/utils/marketComparators). -/
def compareByVolume (a b : MarketData) : ℚ :=
  a.volume24h - b.volume24h

/-- Embedding of `compareByPrice` (src/utils/marketComparators). -/
def compareByPrice (a b : MarketData) : ℚ :=
  a.lastPrice - b.lastPrice

/-- The `ragOrder` lookup of `compareByRAGStatus`:
`{ green: 0, amber: 1, red: 2 }`. -/
def ragOrder : RAGStatus → ℚ
  | .green => 0
  | .amber => 1
  | .red => 2

/-- Embedding of `compareByRAGStatus` (src/utils/marketComparators). -/
def compareByRAGStatus (a b : MarketData) : ℚ :=
  ragOrder a.ragStatus - ragOrder b.ragStatus

/-- Embedding of `compareByField` (src/utils/marketComparators): the
dispatcher over the five sort fields. -/
def compareByField (a b : MarketData) : SortField → ℚ
  | .market => compareByMarket a b
  | .spread => compareBySpread a b
  | .volume => compareByVolume a b
  | .price => compareByPrice a b
  | .ragStatus => compareByRAGStatus a b

/-- The comparator built by `sortMarkets` (src `useMarketSorting`): the
first chain entry with a non-zero comparison decides, negated when that
entry's order is `desc`; ties fall through to the next entry; `0` when
every entry ties. -/
def compoundCompare : List SortConfig → MarketData → MarketData → ℚ
  | [], _, _ => 0
  | config :: rest, a, b =>
    let comparison := compareByField a b config.field
    if comparison ≠ 0 then
      if config.order = .asc then comparison else -comparison
    else
      compoundCompare rest a b

/-- Embedding of `sortMarkets` (src `useMarketSorting`):
`[...markets].sort(comparator)`, a stable comparator sort, modelled by
the stable `List.insertionSort`. -/
def sortMarkets (sortConfigs : List SortConfig) (markets : List MarketData) :
    List MarketData :=
  List.insertionSort (fun a b => compoundCompare sortConfigs a b ≤ 0) markets

/-- Embedding of `toggleSort` (src `useMarketSorting`): cycle
OFF → DESC → ASC → OFF per field, FIFO eviction of the oldest entry at
the cap, reset to the default chain when removal empties the chain. -/
def toggleSort (defaultSort : SortConfig) (maxSorts : ℕ) (field : SortField)
    (current : List SortConfig) : List SortConfig :=
  match current.findIdx? (fun config => config.field == field) with
  | some existingIndex =>
    match current[existingIndex]? with
    | some existing =>
      if existing.order = .desc then
        current.set existingIndex ⟨field, .asc⟩
      else
        let filtered := current.eraseIdx existingIndex
        if filtered.length = 0 then [defaultSort] else filtered
    | none => current
  | none =>
    if maxSorts ≤ current.length then
      current.drop 1 ++ [⟨field, .desc⟩]
    else
      current ++ [⟨field, .desc⟩]

/-! ### Concrete records used to evaluate the sort engine -/

/-- A minimal market record with the given ticker, spread and rating. -/
def mkMarket (tid : String) (sp : Option ℚ) (rag : RAGStatus) : MarketData :=
  { tickerId := tid, market := tid, baseSymbol := tid, targetSymbol := tid,
    highestBid := none, lowestAsk := none, spread := sp, spreadPercentage := sp,
    ragStatus := rag, lastPrice := 0, volume24h := 0, high24h := none, low24h := none }

def marketWithSpread : MarketData := mkMarket "AAA_USDT" (some 1) .green

def marketNullSpread : MarketData := mkMarket "BBB_USDT" none .red

def marketGreen : MarketData := mkMarket "GGG_USDT" (some 1) .green

def marketAmber : MarketData := mkMarket "MMM_USDT" (some 3) .amber

/-- C1 (evaluation at the failing input): under the chain
`[{spread, desc}]` the `sortMarkets` of `useMarketSorting` places the
null-spread record FIRST, because the direction sign-flip is applied to
the comparator's null-sentinel values as well; under `[{spread, asc}]`
nulls do sort last.  This contradicts "nulls sort last under both
directions". -/
theorem sortMarkets_spread_desc_nulls_first :
    sortMarkets [⟨.spread, .desc⟩] [marketWithSpread, marketNullSpread] =
        [marketNullSpread, marketWithSpread] ∧
      sortMarkets [⟨.spread, .asc⟩] [marketWithSpread, marketNullSpread] =
        [marketWithSpread, marketNullSpread] := by
  decide

/-! ### Helper lemmas about the compound comparator -/

/-- A single ascending chain entry compares exactly by its field. -/
theorem compoundCompare_single_asc (f : SortField) (a b : MarketData) :
    compoundCompare [⟨f, .asc⟩] a b = compareByField a b f := by
  by_cases h : compareByField a b f = 0 <;> simp [compoundCompare, h]

/-- A single descending chain entry compares by the negated field
comparator. -/
theorem compoundCompare_single_desc (f : SortField) (a b : MarketData) :
    compoundCompare [⟨f, .desc⟩] a b = -(compareByField a b f) := by
  by_cases h : compareByField a b f = 0 <;> simp [compoundCompare, h]

/-- C5 counterexample: under the single-entry chain
`[{ragStatus, desc}]` a green record is sorted AFTER an amber record,
refuting "the desc liquidity-rating chain orders every green record
before every amber record". -/
theorem sortMarkets_ragStatus_desc_counterexample :
    sortMarkets [⟨.ragStatus, .desc⟩] [marketGreen, marketAmber] =
        [marketAmber, marketGreen] ∧
      ¬ List.Pairwise (fun a b => ragOrder a.ragStatus ≤ ragOrder b.ragStatus)
        (sortMarkets [⟨.ragStatus, .desc⟩] [marketGreen, marketAmber]) := by
  have h1 : sortMarkets [⟨.ragStatus, .desc⟩] [marketGreen, marketAmber] =
      [marketAmber, marketGreen] := by
    norm_num [sortMarkets, List.insertionSort, List.orderedInsert, compoundCompare,
      compareByField, compareByRAGStatus, ragOrder, marketGreen, marketAmber, mkMarket,
      if_neg (show ¬ SortOrder.desc = SortOrder.asc by decide)]
  refine ⟨h1, ?_⟩
  rw [h1]
  intro hpw
  have := List.rel_of_pairwise_cons hpw (List.mem_singleton_self marketGreen)
  simp [marketAmber, marketGreen, mkMarket, ragOrder] at this
  exact absurd this (by norm_num)

/-- C5 amended: `compareByRAGStatus` uses the priority order
green `<` amber `<` red (green best), so the ascending
liquidity-rating chain places every green record before every amber
record and every amber before every red, while the descending chain
produces exactly the reverse order (red first). -/
theorem sortMarkets_ragStatus_ordering (markets : List MarketData) :
    List.Pairwise (fun a b => ragOrder a.ragStatus ≤ ragOrder b.ragStatus)
      (sortMarkets [⟨.ragStatus, .asc⟩] markets) ∧
    List.Pairwise (fun a b => ragOrder b.ragStatus ≤ ragOrder a.ragStatus)
      (sortMarkets [⟨.ragStatus, .desc⟩] markets) := by
  constructor
  · have key : ∀ a b : MarketData,
        (compoundCompare [⟨.ragStatus, .asc⟩] a b ≤ 0) ↔
          ragOrder a.ragStatus ≤ ragOrder b.ragStatus := by
      intro a b
      rw [compoundCompare_single_asc]
      show compareByRAGStatus a b ≤ 0 ↔ _
      rw [compareByRAGStatus, sub_nonpos]
    letI r : MarketData → MarketData → Prop :=
      fun a b => compoundCompare [⟨.ragStatus, .asc⟩] a b ≤ 0
    haveI : IsTotal MarketData r :=
      ⟨fun a b => by
        rcases le_total (ragOrder a.ragStatus) (ragOrder b.ragStatus) with h | h
        · exact Or.inl ((key a b).mpr h)
        · exact Or.inr ((key b a).mpr h)⟩
    haveI : IsTrans MarketData r :=
      ⟨fun a b c hab hbc =>
        (key a c).mpr (le_trans ((key a b).mp hab) ((key b c).mp hbc))⟩
    exact (List.sorted_insertionSort r markets).imp fun hab => (key _ _).mp hab
  · have key : ∀ a b : MarketData,
        (compoundCompare [⟨.ragStatus, .desc⟩] a b ≤ 0) ↔
          ragOrder b.ragStatus ≤ ragOrder a.ragStatus := by
      intro a b
      rw [compoundCompare_single_desc]
      show -(compareByRAGStatus a b) ≤ 0 ↔ _
      rw [compareByRAGStatus, neg_sub, sub_nonpos]
    letI r : MarketData → MarketData → Prop :=
      fun a b => compoundCompare [⟨.ragStatus, .desc⟩] a b ≤ 0
    haveI : IsTotal MarketData r :=
      ⟨fun a b => by
        rcases le_total (ragOrder b.ragStatus) (ragOrder a.ragStatus) with h | h
        · exact Or.inl ((key a b).mpr h)
        · exact Or.inr ((key b a).mpr h)⟩
    haveI : IsTrans MarketData r :=
      ⟨fun a b c hab hbc =>
        (key a c).mpr (le_trans ((key b c).mp hbc) ((key a b).mp hab))⟩
    exact (List.sorted_insertionSort r markets).imp fun hab => (key _ _).mp hab

/-! ### Toggle state machine -/

/-- A chain without the field `f` has no match for the toggle's
`findIndex` probe. -/
theorem findIdx_no_field (chain : List SortConfig) (f : SortField)
    (h : ∀ c ∈ chain, c.field ≠ f) :
    chain.findIdx? (fun config => config.field == f) = none :=
  List.findIdx?_eq_none_iff.mpr fun c hc => by simpa using h c hc

/-- In a chain whose only `f`-entry is last, `findIndex` returns the
last position. -/
theorem findIdx_concat (rest : List SortConfig) (f : SortField) (o : SortOrder)
    (h : ∀ c ∈ rest, c.field ≠ f) :
    (rest ++ [({ field := f, order := o } : SortConfig)]).findIdx?
        (fun config => config.field == f) =
      some rest.length := by
  rw [List.findIdx?_append, findIdx_no_field rest f h]
  simp

/-- Toggling `f` when its entry is last and descending flips that entry
to ascending in place. -/
theorem toggleSort_concat_desc (d : SortConfig) (m : ℕ) (f : SortField)
    (rest : List SortConfig) (h : ∀ c ∈ rest, c.field ≠ f) :
    toggleSort d m f (rest ++ [⟨f, .desc⟩]) = rest ++ [⟨f, .asc⟩] := by
  unfold toggleSort
  rw [findIdx_concat rest f .desc h]
  dsimp only
  rw [List.getElem?_concat_length]
  dsimp only
  rw [if_pos rfl, List.set_append_right _ _ (le_refl rest.length)]
  simp

/-- Toggling `f` when its entry is last and ascending removes the
entry, resetting to the default chain when that empties the chain. -/
theorem toggleSort_concat_asc (d : SortConfig) (m : ℕ) (f : SortField)
    (rest : List SortConfig) (h : ∀ c ∈ rest, c.field ≠ f) :
    toggleSort d m f (rest ++ [⟨f, .asc⟩]) =
      if rest.length = 0 then [d] else rest := by
  unfold toggleSort
  rw [findIdx_concat rest f .asc h]
  dsimp only
  rw [List.getElem?_concat_length]
  dsimp only
  rw [if_neg (by simp), List.eraseIdx_append_of_length_le (le_refl rest.length)]
  simp

/-- C7: for a field `f` absent from the chain, three consecutive
toggles run the OFF → DESC → ASC → OFF ring: the first appends
`{f, desc}`, the second flips that same entry to `asc` in place, the
third removes it, resetting to the default chain if the removal empties
the chain. -/
theorem toggleSort_cycle (d : SortConfig) (m : ℕ) (f : SortField)
    (chain : List SortConfig) (h : ∀ c ∈ chain, c.field ≠ f) :
    ∃ rest, (∀ c ∈ rest, c.field ≠ f) ∧
      toggleSort d m f chain = rest ++ [⟨f, .desc⟩] ∧
      toggleSort d m f (toggleSort d m f chain) = rest ++ [⟨f, .asc⟩] ∧
      toggleSort d m f (toggleSort d m f (toggleSort d m f chain)) =
        (if rest.length = 0 then [d] else rest) := by
  have hnone := findIdx_no_field chain f h
  by_cases hcap : m ≤ chain.length
  · have h1 : toggleSort d m f chain = chain.drop 1 ++ [⟨f, .desc⟩] := by
      unfold toggleSort
      rw [hnone]
      dsimp only
      rw [if_pos hcap]
    have hd : ∀ c ∈ chain.drop 1, c.field ≠ f :=
      fun c hc => h c (List.mem_of_mem_drop hc)
    refine ⟨chain.drop 1, hd, h1, ?_, ?_⟩
    · rw [h1, toggleSort_concat_desc d m f _ hd]
    · rw [h1, toggleSort_concat_desc d m f _ hd, toggleSort_concat_asc d m f _ hd]
  · have h1 : toggleSort d m f chain = chain ++ [⟨f, .desc⟩] := by
      unfold toggleSort
      rw [hnone]
      dsimp only
      rw [if_neg hcap]
    refine ⟨chain, h, h1, ?_, ?_⟩
    · rw [h1, toggleSort_concat_desc d m f _ h]
    · rw [h1, toggleSort_concat_desc d m f _ h, toggleSort_concat_asc d m f _ h]

/-- C7 witness: toggling `spread` three times on the default chain
`[{volume, desc}]` with cap 2. -/
theorem toggleSort_cycle_witness :
    ∃ rest, (∀ c ∈ rest, SortConfig.field c ≠ SortField.spread) ∧
      toggleSort ⟨.volume, .desc⟩ 2 .spread [⟨.volume, .desc⟩] =
        rest ++ [⟨.spread, .desc⟩] ∧
      toggleSort ⟨.volume, .desc⟩ 2 .spread
          (toggleSort ⟨.volume, .desc⟩ 2 .spread [⟨.volume, .desc⟩]) =
        rest ++ [⟨.spread, .asc⟩] ∧
      toggleSort ⟨.volume, .desc⟩ 2 .spread
          (toggleSort ⟨.volume, .desc⟩ 2 .spread
            (toggleSort ⟨.volume, .desc⟩ 2 .spread [⟨.volume, .desc⟩])) =
        (if rest.length = 0 then [⟨.volume, .desc⟩] else rest) :=
  toggleSort_cycle ⟨.volume, .desc⟩ 2 .spread [⟨.volume, .desc⟩] (by decide)

/-- One toggle keeps the chain length within the cap. -/
theorem toggleSort_length_le (d : SortConfig) (m : ℕ) (hm : 1 ≤ m)
    (f : SortField) (chain : List SortConfig) (hlen : chain.length ≤ m) :
    (toggleSort d m f chain).length ≤ m := by
  unfold toggleSort
  cases hidx : chain.findIdx? (fun config => config.field == f) with
  | none =>
    dsimp only
    by_cases hcap : m ≤ chain.length
    · rw [if_pos hcap]
      simp only [List.length_append, List.length_drop, List.length_singleton]
      omega
    · rw [if_neg hcap]
      simp only [List.length_append, List.length_singleton]
      omega
  | some i =>
    dsimp only
    cases hget : chain[i]? with
    | none => exact hlen
    | some existing =>
      dsimp only
      by_cases hdesc : existing.order = .desc
      · rw [if_pos hdesc]
        simpa using hlen
      · rw [if_neg hdesc]
        by_cases hz : (chain.eraseIdx i).length = 0
        · rw [if_pos hz]
          simpa using hm
        · rw [if_neg hz]
          exact le_trans (List.length_eraseIdx_le chain i) hlen

/-- C8: starting from the initial chain `[defaultSort]`, no sequence of
toggles can push the chain length above the cap `maxSorts ≥ 1`. -/
theorem toggleSort_chain_cap (d : SortConfig) (m : ℕ) (hm : 1 ≤ m)
    (toggles : List SortField) :
    (toggles.foldl (fun chain f => toggleSort d m f chain) [d]).length ≤ m := by
  suffices hall : ∀ (ts : List SortField) (chain : List SortConfig),
      chain.length ≤ m →
      (ts.foldl (fun chain f => toggleSort d m f chain) chain).length ≤ m by
    exact hall toggles [d] (by simpa using hm)
  intro ts
  induction ts with
  | nil => intro chain hc; simpa using hc
  | cons t ts ih =>
    intro chain hc
    exact ih _ (toggleSort_length_le d m hm t chain hc)

/-- C8 witness: three toggles with cap 2 from the default chain. -/
theorem toggleSort_chain_cap_witness :
    1 ≤ 2 ∧
      (([SortField.spread, SortField.price, SortField.market]).foldl
        (fun chain f => toggleSort ⟨.volume, .desc⟩ 2 f chain)
        [⟨.volume, .desc⟩]).length ≤ 2 :=
  ⟨by norm_num,
    toggleSort_chain_cap ⟨.volume, .desc⟩ 2 (by norm_num)
      [SortField.spread, SortField.price, SortField.market]⟩

/-! ### Market data assembler -/

/-- A trading pair from `/api/market/pairs` (src/api/types `MarketPair`). -/
structure MarketPair where
  ticker_id : String
  base : String
  target : String
deriving DecidableEq

/-- A validated, transformed market summary (src/api/validators
`ValidatedMarketSummary`): numeric fields are finite and non-negative,
bid/ask optionally null. -/
structure ValidatedMarketSummary where
  ticker_id : String
  base_currency : String
  target_currency : String
  last_price : ℚ
  base_volume : ℚ
  target_volume : ℚ
  bid : Option ℚ
  ask : Option ℚ
  high : ℚ
  low : ℚ
deriving DecidableEq

/-- The summary lookup of `fetchMarkets` (src `useMarketData`):
`new Map(summaries.map(s => [s.ticker_id, s])).get(tid)` — a JS `Map`
keeps the LAST entry for a duplicated key. -/
def summaryMapGet (summaries : List ValidatedMarketSummary) (tid : String) :
    Option ValidatedMarketSummary :=
  (summaries.filter (fun s => s.ticker_id == tid)).getLast?

/-- The per-pair record built by `fetchMarkets` (src `useMarketData`,
the `pairs.map` body): joins the pair with its summary by ticker id,
derives the spread and the RAG status, and defaults `lastPrice` and
`volume24h` to 0 when the summary is missing. -/
def buildMarketRecord (summaries : List ValidatedMarketSummary)
    (pair : MarketPair) : MarketData :=
  let summary := summaryMapGet summaries pair.ticker_id
  let bid : Option ℚ := match summary with
    | some s => s.bid
    | none => none
  let ask : Option ℚ := match summary with
    | some s => s.ask
    | none => none
  let spread := calculateSpread (bid.map JSNum.fin) (ask.map JSNum.fin)
  let ragStatus := classifyRAG (spread.map JSNum.fin)
  { tickerId := pair.ticker_id
    market := pair.base ++ "/" ++ pair.target
    baseSymbol := pair.base
    targetSymbol := pair.target
    highestBid := bid
    lowestAsk := ask
    spread := spread
    spreadPercentage := spread
    ragStatus := ragStatus
    lastPrice := match summary with
      | some s => s.last_price
      | none => 0
    volume24h := match summary with
      | some s => s.base_volume
      | none => 0
    high24h := summary.map (·.high)
    low24h := summary.map (·.low) }

/-- The final `processedMarkets.sort((a, b) => b.volume24h - a.volume24h)`
of `fetchMarkets`: stable sort by descending 24h volume. -/
def sortByVolumeDesc (markets : List MarketData) : List MarketData :=
  List.insertionSort (fun a b => b.volume24h - a.volume24h ≤ 0) markets

/-- The assembly stage of `fetchMarkets` (src `useMarketData`):
one record per pair, then the baseline volume sort. -/
def processMarkets (pairs : List MarketPair)
    (summaries : List ValidatedMarketSummary) : List MarketData :=
  sortByVolumeDesc (pairs.map (buildMarketRecord summaries))

/-- C2: the assembler yields exactly one record per trading pair (the
output is a permutation of the per-pair builds), the join is by ticker
id, and a pair with no matching summary gets null bid/ask/spread,
`lastPrice = 0`, `volume24h = 0`, and a red rating. -/
theorem processMarkets_one_record_per_pair (pairs : List MarketPair)
    (summaries : List ValidatedMarketSummary) :
    (processMarkets pairs summaries).Perm
        (pairs.map (buildMarketRecord summaries)) ∧
      (∀ pair s, summaryMapGet summaries pair.ticker_id = some s →
        (buildMarketRecord summaries pair).highestBid = s.bid ∧
          (buildMarketRecord summaries pair).lowestAsk = s.ask ∧
          (buildMarketRecord summaries pair).lastPrice = s.last_price ∧
          (buildMarketRecord summaries pair).volume24h = s.base_volume) ∧
      (∀ pair, summaryMapGet summaries pair.ticker_id = none →
        (buildMarketRecord summaries pair).highestBid = none ∧
          (buildMarketRecord summaries pair).lowestAsk = none ∧
          (buildMarketRecord summaries pair).spread = none ∧
          (buildMarketRecord summaries pair).lastPrice = 0 ∧
          (buildMarketRecord summaries pair).volume24h = 0 ∧
          (buildMarketRecord summaries pair).ragStatus = .red) := by
  refine ⟨List.perm_insertionSort _ _, ?_, ?_⟩
  · intro pair s hs
    simp [buildMarketRecord, hs]
  · intro pair hs
    simp [buildMarketRecord, hs, calculateSpread, classifyRAG]

/-- C2 witness: the spec scenario `pairs = [{BTC_USDT, BTC, USDT}]`,
`summaries = []`. -/
theorem processMarkets_one_record_per_pair_witness :
    (buildMarketRecord [] ⟨"BTC_USDT", "BTC", "USDT"⟩).highestBid = none ∧
      (buildMarketRecord [] ⟨"BTC_USDT", "BTC", "USDT"⟩).lowestAsk = none ∧
      (buildMarketRecord [] ⟨"BTC_USDT", "BTC", "USDT"⟩).spread = none ∧
      (buildMarketRecord [] ⟨"BTC_USDT", "BTC", "USDT"⟩).lastPrice = 0 ∧
      (buildMarketRecord [] ⟨"BTC_USDT", "BTC", "USDT"⟩).volume24h = 0 ∧
      (buildMarketRecord [] ⟨"BTC_USDT", "BTC", "USDT"⟩).ragStatus = .red :=
  (processMarkets_one_record_per_pair [⟨"BTC_USDT", "BTC", "USDT"⟩] []).2.2
    ⟨"BTC_USDT", "BTC", "USDT"⟩ rfl

/-! ### Depth analyzer -/

/-- A validated order book entry (src/api/types `OrderBookEntry`). -/
structure OrderBookEntry where
  price : ℚ
  quantity : ℚ
deriving DecidableEq

/-- A validated depth snapshot (src/api/types `MarketDepth`). -/
structure ValidatedMarketDepth where
  ticker_id : String
  timestamp : ℤ
  bids : List OrderBookEntry
  asks : List OrderBookEntry
deriving DecidableEq

/-- A `{min, max}` price range. -/
structure PriceRange where
  min : ℚ
  max : ℚ
deriving DecidableEq

/-- The depth analysis result (src/api/types `MarketDepthAnalysis`). -/
structure MarketDepthAnalysis where
  tickerId : String
  totalBidQuantity : ℚ
  totalAskQuantity : ℚ
  bidPriceRange : Option PriceRange
  askPriceRange : Option PriceRange
  bidDepth : ℕ
  askDepth : ℕ
  spreadAtDepth : Option ℚ
  timestamp : ℤ
deriving DecidableEq

/-- Embedding of `analyzeOrderBook` (src `useMarketDepth`): quantity
sums via `reduce`, price ranges via `Math.min/Math.max` over the mapped
prices guarded by `length > 0`, and
`spreadAtDepth = ((askMin - bidMax) / (0.5 * (askMin + bidMax))) * 100`
when both ranges exist. -/
def analyzeOrderBook (depthData : ValidatedMarketDepth) : MarketDepthAnalysis :=
  let totalBidQuantity := depthData.bids.foldl (fun sum bid => sum + bid.quantity) 0
  let totalAskQuantity := depthData.asks.foldl (fun sum ask => sum + ask.quantity) 0
  let bidPrices := depthData.bids.map (·.price)
  let askPrices := depthData.asks.map (·.price)
  let bidPriceRange : Option PriceRange :=
    match bidPrices with
    | [] => none
    | p :: ps => some ⟨ps.foldl min p, ps.foldl max p⟩
  let askPriceRange : Option PriceRange :=
    match askPrices with
    | [] => none
    | p :: ps => some ⟨ps.foldl min p, ps.foldl max p⟩
  let spreadAtDepth : Option ℚ :=
    match bidPriceRange, askPriceRange with
    | some br, some ar =>
      some (((ar.min - br.max) / ((1 / 2) * (ar.min + br.max))) * 100)
    | _, _ => none
  { tickerId := depthData.ticker_id
    totalBidQuantity := totalBidQuantity
    totalAskQuantity := totalAskQuantity
    bidPriceRange := bidPriceRange
    askPriceRange := askPriceRange
    bidDepth := depthData.bids.length
    askDepth := depthData.asks.length
    spreadAtDepth := spreadAtDepth
    timestamp := depthData.timestamp }

/-- A left fold of `+ quantity` from `c` adds the quantity sum to `c`. -/
theorem foldl_quantity_sum (l : List OrderBookEntry) :
    ∀ c : ℚ, l.foldl (fun sum e => sum + e.quantity) c =
      c + (l.map (·.quantity)).sum := by
  induction l with
  | nil => intro c; simp
  | cons e l ih =>
    intro c
    simp only [List.foldl_cons, List.map_cons, List.sum_cons, ih]
    ring

/-- A left fold of `min` lands on a member of the seeded list. -/
theorem foldl_min_mem : ∀ (ps : List ℚ) (p : ℚ), ps.foldl min p ∈ p :: ps := by
  intro ps
  induction ps with
  | nil => intro p; simp
  | cons x xs ih =>
    intro p
    simp only [List.foldl_cons]
    rcases List.mem_cons.mp (ih (min p x)) with h | h
    · rcases min_choice p x with hm | hm <;> rw [h, hm] <;> simp
    · exact List.mem_cons_of_mem _ (List.mem_cons_of_mem _ h)

/-- A left fold of `min` bounds every member of the seeded list. -/
theorem foldl_min_le : ∀ (ps : List ℚ) (p q : ℚ), q ∈ p :: ps →
    ps.foldl min p ≤ q := by
  intro ps
  induction ps with
  | nil =>
    intro p q hq
    simp at hq
    simp [hq]
  | cons x xs ih =>
    intro p q hq
    simp only [List.foldl_cons]
    have hbase : xs.foldl min (min p x) ≤ min p x :=
      ih (min p x) (min p x) (List.mem_cons_self _ _)
    have hmem : q = p ∨ q = x ∨ q ∈ xs := by simpa using hq
    rcases hmem with h | h | h
    · rw [h]; exact le_trans hbase (min_le_left p x)
    · rw [h]; exact le_trans hbase (min_le_right p x)
    · exact ih (min p x) q (List.mem_cons_of_mem _ h)

/-- A left fold of `max` lands on a member of the seeded list. -/
theorem foldl_max_mem : ∀ (ps : List ℚ) (p : ℚ), ps.foldl max p ∈ p :: ps := by
  intro ps
  induction ps with
  | nil => intro p; simp
  | cons x xs ih =>
    intro p
    simp only [List.foldl_cons]
    rcases List.mem_cons.mp (ih (max p x)) with h | h
    · rcases max_choice p x with hm | hm <;> rw [h, hm] <;> simp
    · exact List.mem_cons_of_mem _ (List.mem_cons_of_mem _ h)

/-- A left fold of `max` dominates every member of the seeded list. -/
theorem le_foldl_max : ∀ (ps : List ℚ) (p q : ℚ), q ∈ p :: ps →
    q ≤ ps.foldl max p := by
  intro ps
  induction ps with
  | nil =>
    intro p q hq
    simp at hq
    simp [hq]
  | cons x xs ih =>
    intro p q hq
    simp only [List.foldl_cons]
    have hbase : max p x ≤ xs.foldl max (max p x) :=
      ih (max p x) (max p x) (List.mem_cons_self _ _)
    have hmem : q = p ∨ q = x ∨ q ∈ xs := by simpa using hq
    rcases hmem with h | h | h
    · rw [h]; exact le_trans (le_max_left p x) hbase
    · rw [h]; exact le_trans (le_max_right p x) hbase
    · exact ih (max p x) q (List.mem_cons_of_mem _ h)

/-- C9: the depth analysis returns the bid/ask quantity sums, the side
counts, `min`/`max` price ranges that are null exactly on an empty
side, and `spreadAtDepth = ((bestAsk - bestBid) / midpoint) * 100` with
`bestBid` the max bid price and `bestAsk` the min ask price, null when
either side is empty. -/
theorem analyzeOrderBook_spec (d : ValidatedMarketDepth) :
    (analyzeOrderBook d).totalBidQuantity = (d.bids.map (·.quantity)).sum ∧
    (analyzeOrderBook d).totalAskQuantity = (d.asks.map (·.quantity)).sum ∧
    (analyzeOrderBook d).bidDepth = d.bids.length ∧
    (analyzeOrderBook d).askDepth = d.asks.length ∧
    ((analyzeOrderBook d).bidPriceRange = none ↔ d.bids = []) ∧
    ((analyzeOrderBook d).askPriceRange = none ↔ d.asks = []) ∧
    (∀ r, (analyzeOrderBook d).bidPriceRange = some r →
      (r.min ∈ d.bids.map (·.price) ∧ ∀ q ∈ d.bids.map (·.price), r.min ≤ q) ∧
      (r.max ∈ d.bids.map (·.price) ∧ ∀ q ∈ d.bids.map (·.price), q ≤ r.max)) ∧
    (∀ r, (analyzeOrderBook d).askPriceRange = some r →
      (r.min ∈ d.asks.map (·.price) ∧ ∀ q ∈ d.asks.map (·.price), r.min ≤ q) ∧
      (r.max ∈ d.asks.map (·.price) ∧ ∀ q ∈ d.asks.map (·.price), q ≤ r.max)) ∧
    ((d.bids = [] ∨ d.asks = []) → (analyzeOrderBook d).spreadAtDepth = none) ∧
    (∀ br ar, (analyzeOrderBook d).bidPriceRange = some br →
      (analyzeOrderBook d).askPriceRange = some ar →
      (analyzeOrderBook d).spreadAtDepth =
        some (((ar.min - br.max) / ((ar.min + br.max) / 2)) * 100)) := by
  rcases hb : d.bids with _ | ⟨b0, btl⟩ <;> rcases ha : d.asks with _ | ⟨a0, atl⟩
  · simp [analyzeOrderBook, hb, ha]
  · refine ⟨?_, ?_, ?_, ?_, ?_, ?_, ?_, ?_, ?_, ?_⟩
    · simp [analyzeOrderBook, hb, ha, foldl_quantity_sum]
    · simp [analyzeOrderBook, hb, ha, foldl_quantity_sum]
    · simp [analyzeOrderBook, hb, ha]
    · simp [analyzeOrderBook, hb, ha]
    · simp [analyzeOrderBook, hb, ha]
    · simp [analyzeOrderBook, hb, ha]
    · intro r hr
      simp [analyzeOrderBook, hb, ha] at hr
    · intro r hr
      simp only [analyzeOrderBook, hb, ha, List.map_cons, List.map_nil,
        Option.some.injEq] at hr
      subst hr
      refine ⟨⟨foldl_min_mem _ _, ?_⟩, ⟨foldl_max_mem _ _, ?_⟩⟩
      · intro q hq
        exact foldl_min_le _ _ q (by simpa using hq)
      · intro q hq
        exact le_foldl_max _ _ q (by simpa using hq)
    · intro h
      simp [analyzeOrderBook, hb, ha]
    · intro br ar hbr har
      simp [analyzeOrderBook, hb, ha] at hbr
  · refine ⟨?_, ?_, ?_, ?_, ?_, ?_, ?_, ?_, ?_, ?_⟩
    · simp [analyzeOrderBook, hb, ha, foldl_quantity_sum]
    · simp [analyzeOrderBook, hb, ha, foldl_quantity_sum]
    · simp [analyzeOrderBook, hb, ha]
    · simp [analyzeOrderBook, hb, ha]
    · simp [analyzeOrderBook, hb, ha]
    · simp [analyzeOrderBook, hb, ha]
    · intro r hr
      simp only [analyzeOrderBook, hb, ha, List.map_cons, List.map_nil,
        Option.some.injEq] at hr
      subst hr
      refine ⟨⟨foldl_min_mem _ _, ?_⟩, ⟨foldl_max_mem _ _, ?_⟩⟩
      · intro q hq
        exact foldl_min_le _ _ q (by simpa using hq)
      · intro q hq
        exact le_foldl_max _ _ q (by simpa using hq)
    · intro r hr
      simp [analyzeOrderBook, hb, ha] at hr
    · intro h
      simp [analyzeOrderBook, hb, ha]
    · intro br ar hbr har
      simp [analyzeOrderBook, hb, ha] at har
  · refine ⟨?_, ?_, ?_, ?_, ?_, ?_, ?_, ?_, ?_, ?_⟩
    · simp [analyzeOrderBook, hb, ha, foldl_quantity_sum]
    · simp [analyzeOrderBook, hb, ha, foldl_quantity_sum]
    · simp [analyzeOrderBook, hb, ha]
    · simp [analyzeOrderBook, hb, ha]
    · simp [analyzeOrderBook, hb, ha]
    · simp [analyzeOrderBook, hb, ha]
    · intro r hr
      simp only [analyzeOrderBook, hb, ha, List.map_cons,
        Option.some.injEq] at hr
      subst hr
      refine ⟨⟨foldl_min_mem _ _, ?_⟩, ⟨foldl_max_mem _ _, ?_⟩⟩
      · intro q hq
        exact foldl_min_le _ _ q (by simpa using hq)
      · intro q hq
        exact le_foldl_max _ _ q (by simpa using hq)
    · intro r hr
      simp only [analyzeOrderBook, hb, ha, List.map_cons,
        Option.some.injEq] at hr
      subst hr
      refine ⟨⟨foldl_min_mem _ _, ?_⟩, ⟨foldl_max_mem _ _, ?_⟩⟩
      · intro q hq
        exact foldl_min_le _ _ q (by simpa using hq)
      · intro q hq
        exact le_foldl_max _ _ q (by simpa using hq)
    · intro h
      rcases h with h | h
      · simp [hb] at h
      · simp [ha] at h
    · intro br ar hbr har
      simp only [analyzeOrderBook, hb, ha, List.map_cons,
        Option.some.injEq] at hbr har ⊢
      subst hbr
      subst har
      congr 1
      ring

/-- C9 witness: a snapshot with one bid and no asks has a null
spread-at-depth. -/
theorem analyzeOrderBook_spec_witness :
    (analyzeOrderBook ⟨"BTC_PLN", 0, [⟨16600, 1⟩], []⟩).spreadAtDepth = none :=
  (analyzeOrderBook_spec ⟨"BTC_PLN", 0, [⟨16600, 1⟩], []⟩).2.2.2.2.2.2.2.2.1
    (Or.inr rfl)

/-! ### Summary validator -/

/-- A raw JS value as it reaches the `optionalNumber` preprocess step:
`undefined`, `null`, or a string. -/
inductive JSValue where
  | undef
  | nullv
  | str (s : String)
deriving DecidableEq

/-- Digit run to a natural number. -/
def digitsVal (cs : List Char) : ℕ :=
  cs.foldl (fun n c => 10 * n + (c.toNat - 48)) 0

/-- Unsigned decimal literal: digits with an optional fractional part. -/
def parseDecimal (cs : List Char) : Option ℚ :=
  let intPart := cs.takeWhile (·.isDigit)
  let rest := cs.dropWhile (·.isDigit)
  match rest with
  | [] => if intPart.isEmpty then none else some (digitsVal intPart)
  | '.' :: frac =>
    if frac.all (·.isDigit) && !(intPart.isEmpty && frac.isEmpty) then
      some ((digitsVal intPart : ℚ) + (digitsVal frac : ℚ) / (10 ^ frac.length))
    else none
  | _ => none

/-- Models the JavaScript `Number(string)` coercion on plain decimal
literals (optional sign, digits, optional fraction); `none` stands for
`NaN`.  Other `Number` inputs (exponents, hex, whitespace forms) do not
occur in the claims under verification. -/
def jsNumber (s : String) : Option ℚ :=
  match s.data with
  | '-' :: cs => (parseDecimal cs).map (fun q => -q)
  | '+' :: cs => parseDecimal cs
  | cs => parseDecimal cs

/-- The `z.preprocess` step of `optionalNumber` (src/api/validators):
`undefined`/`null`/`''` become `null`, otherwise `Number(val)` with
`NaN` mapped to `null`. -/
def preprocessOptional : JSValue → Option ℚ
  | .undef => none
  | .nullv => none
  | .str s => if s = "" then none else jsNumber s

/-- Embedding of `optionalNumber` (src/api/validators): the preprocess
step piped into `z.number().nonnegative().nullable()`. -/
def optionalNumber (val : JSValue) : Except String (Option ℚ) :=
  match preprocessOptional val with
  | none => .ok none
  | some num =>
    if 0 ≤ num then .ok (some num)
    else .error "Number must be greater than or equal to 0"

/-- Model of `z.coerce.number().nonnegative(msg)` on a wire string: `Number`
coercion, `NaN` rejected by `z.number()`, negative rejected with
`msg`. -/
def coerceNonneg (s : String) (msg : String) : Except String ℚ :=
  match jsNumber s with
  | none => .error "Expected number, received nan"
  | some num => if 0 ≤ num then .ok num else .error msg

/-- A raw summary item as validated by `RawMarketSummaryItemSchema`
(src/api/validators): required numeric fields arrive as strings,
`highest_bid`/`lowest_ask` may be missing/null/string. -/
structure RawMarketSummaryItem where
  trading_pairs : String
  lowest_price_24h : String
  highest_price_24h : String
  highest_bid : JSValue
  lowest_ask : JSValue
  base_volume : String
  quote_volume : String
  last_price : String
  price_change_percent_24h : Option String
deriving DecidableEq

/-- The parse result of one raw summary item. -/
structure ParsedSummaryItem where
  trading_pairs : String
  lowest_price_24h : ℚ
  highest_price_24h : ℚ
  highest_bid : Option ℚ
  lowest_ask : Option ℚ
  base_volume : ℚ
  quote_volume : ℚ
  last_price : ℚ
  price_change_percent_24h : Option ℚ
deriving DecidableEq

/-- The `/api/market/summary` response wrapper
(`RawMarketSummaryResponseSchema`). -/
structure RawMarketSummaryResponse where
  timestamp : String
  summary : List RawMarketSummaryItem
deriving DecidableEq

/-- Field-by-field validation of one raw item per
`RawMarketSummaryItemSchema`.  Zod aggregates every field error into
one `ZodError`; success and failure coincide with this embedding, which
reports the first failing field's message. -/
def validateRawItem (item : RawMarketSummaryItem) :
    Except String ParsedSummaryItem := do
  if item.trading_pairs.length < 1 then throw "trading_pairs is required"
  let lowest ← coerceNonneg item.lowest_price_24h
    "lowest_price_24h must be non-negative"
  let highest ← coerceNonneg item.highest_price_24h
    "highest_price_24h must be non-negative"
  let bid ← optionalNumber item.highest_bid
  let ask ← optionalNumber item.lowest_ask
  let baseVol ← coerceNonneg item.base_volume "base_volume must be non-negative"
  let quoteVol ← coerceNonneg item.quote_volume "quote_volume must be non-negative"
  let lastP ← coerceNonneg item.last_price "last_price must be non-negative"
  let change ← match item.price_change_percent_24h with
    | none => pure none
    | some s =>
      match jsNumber s with
      | none => throw "Expected number, received nan"
      | some q => pure (some q)
  return { trading_pairs := item.trading_pairs
           lowest_price_24h := lowest
           highest_price_24h := highest
           highest_bid := bid
           lowest_ask := ask
           base_volume := baseVol
           quote_volume := quoteVol
           last_price := lastP
           price_change_percent_24h := change }

/-- The per-item transform of `validateMarketSummary`
(src/api/validators): split `trading_pairs` on `-` if present else `_`,
rejoin with `_`, and map the wire fields onto the application shape. -/
def transformSummaryItem (item : ParsedSummaryItem) : ValidatedMarketSummary :=
  let separator : Char := if item.trading_pairs.contains '-' then '-' else '_'
  let parts := item.trading_pairs.split (· = separator)
  let base := parts.getD 0 ""
  let target := parts.getD 1 ""
  { ticker_id := base ++ "_" ++ target
    base_currency := base
    target_currency := target
    last_price := item.last_price
    base_volume := item.base_volume
    target_volume := item.quote_volume
    bid := item.highest_bid
    ask := item.lowest_ask
    high := item.highest_price_24h
    low := item.lowest_price_24h }

/-- Embedding of `validateMarketSummary` (src/api/validators): parse
the wrapper, validate every item, then transform each to the
application format; any item failure fails the whole payload. -/
def validateMarketSummary (data : RawMarketSummaryResponse) :
    Except String (List ValidatedMarketSummary) := do
  let parsed ← data.summary.mapM validateRawItem
  return parsed.map transformSummaryItem

/-- Embedding of `safeValidateMarketSummary` (src/api/validators): the
try/catch wrapper returning `null` on any failure. -/
def safeValidateMarketSummary (data : RawMarketSummaryResponse) :
    Option (List ValidatedMarketSummary) :=
  (validateMarketSummary data).toOption

/-- An `Except.error` short-circuits a bind. -/
theorem except_error_bind {α β : Type} (e : String) (f : α → Except String β) :
    (Except.error e >>= f) = Except.error e := rfl

/-- An `Except.ok` passes through a bind. -/
theorem except_ok_bind {α β : Type} (a : α) (f : α → Except String β) :
    (Except.ok a >>= f) = f a := rfl

/-- On `Except`, `throw` is `Except.error`. -/
theorem except_throw {α : Type} (e : String) :
    (throw e : Except String α) = Except.error e := rfl

/-- If the bid or ask field of an item fails `optionalNumber`, the
whole item fails validation. -/
theorem validateRawItem_err (item : RawMarketSummaryItem)
    (hbad : (∃ e, optionalNumber item.highest_bid = Except.error e) ∨
      ∃ e, optionalNumber item.lowest_ask = Except.error e) :
    ∃ e, validateRawItem item = Except.error e := by
  unfold validateRawItem
  by_cases h0 : item.trading_pairs.length < 1
  · exact ⟨"trading_pairs is required",
      by simp [h0, except_throw, except_error_bind, except_ok_bind]⟩
  · cases h1 : coerceNonneg item.lowest_price_24h
      "lowest_price_24h must be non-negative" with
    | error e =>
      exact ⟨e, by simp [h0, h1, except_throw, except_error_bind, except_ok_bind]⟩
    | ok v1 =>
      cases h2 : coerceNonneg item.highest_price_24h
          "highest_price_24h must be non-negative" with
      | error e =>
        exact ⟨e, by
          simp [h0, h1, h2, except_throw, except_error_bind, except_ok_bind]⟩
      | ok v2 =>
        cases h3 : optionalNumber item.highest_bid with
        | error e =>
          exact ⟨e, by
            simp [h0, h1, h2, h3, except_throw, except_error_bind, except_ok_bind]⟩
        | ok vb =>
          cases h4 : optionalNumber item.lowest_ask with
          | error e =>
            exact ⟨e, by
              simp [h0, h1, h2, h3, h4, except_throw, except_error_bind,
                except_ok_bind]⟩
          | ok va =>
            exfalso
            rcases hbad with ⟨e, he⟩ | ⟨e, he⟩
            · rw [h3] at he
              exact Except.noConfusion he
            · rw [h4] at he
              exact Except.noConfusion he

/-- Mapping `validateRawItem` over a list containing a failing item fails. -/
theorem mapM_validate_err {l : List RawMarketSummaryItem}
    {item : RawMarketSummaryItem} (hmem : item ∈ l)
    (herr : ∃ e, validateRawItem item = Except.error e) :
    ∃ e, l.mapM validateRawItem = Except.error e := by
  induction l with
  | nil => cases hmem
  | cons x xs ih =>
    rcases List.mem_cons.mp hmem with h | hmem'
    · rcases herr with ⟨e, he⟩
      rw [h] at he
      refine ⟨e, ?_⟩
      rw [List.mapM_cons, he, except_error_bind]
    · cases hx : validateRawItem x with
      | error e =>
        refine ⟨e, ?_⟩
        rw [List.mapM_cons, hx, except_error_bind]
      | ok p =>
        rcases ih hmem' with ⟨e, he⟩
        refine ⟨e, ?_⟩
        rw [List.mapM_cons, hx]
        show (xs.mapM validateRawItem >>= fun ys =>
          pure (p :: ys) : Except String (List ParsedSummaryItem)) =
            Except.error e
        rw [he, except_error_bind]

/-- C10: a summary item whose `highest_bid` or `lowest_ask` coerces to
a negative number fails validation of the whole payload — the throwing
variant returns an error and the safe variant returns null — instead of
being coerced to null. -/
theorem negative_bid_fails_validation (resp : RawMarketSummaryResponse)
    (item : RawMarketSummaryItem) (hmem : item ∈ resp.summary) (q : ℚ)
    (hq : q < 0)
    (hfield : preprocessOptional item.highest_bid = some q ∨
      preprocessOptional item.lowest_ask = some q) :
    (∃ e, validateMarketSummary resp = Except.error e) ∧
      safeValidateMarketSummary resp = none := by
  have hbad : (∃ e, optionalNumber item.highest_bid = Except.error e) ∨
      ∃ e, optionalNumber item.lowest_ask = Except.error e := by
    rcases hfield with hf | hf
    · exact Or.inl ⟨"Number must be greater than or equal to 0",
        by simp [optionalNumber, hf, not_le.mpr hq]⟩
    · exact Or.inr ⟨"Number must be greater than or equal to 0",
        by simp [optionalNumber, hf, not_le.mpr hq]⟩
  rcases mapM_validate_err hmem (validateRawItem_err item hbad) with ⟨e, he⟩
  have hval : validateMarketSummary resp = Except.error e := by
    unfold validateMarketSummary
    rw [he, except_error_bind]
  exact ⟨⟨e, hval⟩, by simp [safeValidateMarketSummary, hval, Except.toOption]⟩

/-- A summary item whose `highest_bid` is the string `"-5"`. -/
def negativeBidItem : RawMarketSummaryItem :=
  { trading_pairs := "BTC_USDT"
    lowest_price_24h := "1"
    highest_price_24h := "2"
    highest_bid := .str "-5"
    lowest_ask := .str "1"
    base_volume := "3"
    quote_volume := "4"
    last_price := "5"
    price_change_percent_24h := none }

/-- A summary payload containing `negativeBidItem`. -/
def negativeBidResponse : RawMarketSummaryResponse :=
  { timestamp := "2024-01-01T00:00:00Z", summary := [negativeBidItem] }

/-- C10 witness: the payload with `highest_bid = "-5"` fails both
validation variants. -/
theorem negative_bid_fails_validation_witness :
    (∃ e, validateMarketSummary negativeBidResponse = Except.error e) ∧
      safeValidateMarketSummary negativeBidResponse = none :=
  negative_bid_fails_validation negativeBidResponse negativeBidItem
    (List.mem_singleton_self _) (-5) (by norm_num)
    (Or.inl (by
      norm_num [negativeBidItem, preprocessOptional, jsNumber, parseDecimal,
        digitsVal, List.dropWhile, List.takeWhile,
        (show ¬ (("-5" : String) = "") by decide),
        (show ('5' : Char).isDigit = true by decide),
        (show ('5' : Char).toNat = 53 by decide)]))

end KangaMarket
